import Mathlib

/-!
Shallow embedding of the DJZ-Speak audio effects pipeline
(`src/audio_processor.py`, class `AudioProcessor`).

Audio buffers (pydub `AudioSegment`) are modelled as a structure holding the
interleaved integer samples plus format metadata.  External pydub/scipy
primitives that are not part of this repository (the actual high-pass and
low-pass filters, the resampler) are taken as function parameters; where a claim
depends on their behaviour they are modelled from the spec and marked so in
the doc comment.  Python floats are modelled as real numbers; the exact
comparisons the source performs on them (`enhancement != 1.0`,
`speed_factor == 1.0`) are exact comparisons on rationals in the config.
Each `try/except` block that logs and returns its input is modelled by an
`Option`-returning internal wrapped with `stage_catch`.
-/

/-- pydub `AudioSegment`: interleaved signed integer samples plus format
metadata (frame rate in Hz, channel count, sample width in bytes). -/
structure AudioSegment where
  samples : List ℤ
  frame_rate : ℕ
  channels : ℕ
  sample_width : ℕ
deriving DecidableEq, Repr

/-- The `try: ... except: return audio` pattern wrapped around every DSP
stage body: an internal computation that may fail (raise) is run, and on
failure the unmodified input buffer is returned. -/
def stage_catch (internal : AudioSegment → Option AudioSegment) (audio : AudioSegment) :
    AudioSegment :=
  match internal audio with
  | some result => result
  | none => audio

/-- The effects parameters read by `apply_robotic_effects` from
`self.effects_params`: `frequency_filter.enable`, `frequency_filter.low_cutoff`,
`frequency_filter.high_cutoff`, `harmonic_enhancement`, `mechanical_artifacts`. -/
structure EffectsParams where
  filter_enable : Bool
  low_cutoff : ℤ
  high_cutoff : ℤ
  harmonic_enhancement : ℚ
  mechanical_artifacts : Bool
deriving DecidableEq, Repr

/-- `AudioProcessor.apply_robotic_effects` (audio_processor.py lines 133-166):
fixed stage order frequency filter (if enabled) → harmonic enhancement
(if factor ≠ 1.0) → mechanical artifacts (if enabled); each stage body is
wrapped in its own try/except (`stage_catch`), so the orchestrator always
produces a buffer once it holds a valid `AudioSegment`.  The three stage
internals are parameters because each closes over external pydub/scipy
calls. -/
def apply_robotic_effects (filt enh art : AudioSegment → Option AudioSegment)
    (p : EffectsParams) (audio : AudioSegment) : Option AudioSegment :=
  let a1 := if p.filter_enable then stage_catch filt audio else audio
  let a2 := if p.harmonic_enhancement ≠ 1 then stage_catch enh a1 else a1
  let a3 := if p.mechanical_artifacts then stage_catch art a2 else a2
  some a3

/-- Body of `AudioProcessor._apply_frequency_filter` (lines 168-187): apply
the pydub high-pass filter only when `low_cutoff > 0`, then the low-pass
filter only when `high_cutoff < 20000`.  The filters themselves are pydub
library calls, taken here as function parameters `high_pass`/`low_pass`. -/
def apply_frequency_filter (high_pass low_pass : ℤ → AudioSegment → AudioSegment)
    (low_cutoff high_cutoff : ℤ) (audio : AudioSegment) : AudioSegment :=
  let a1 := if 0 < low_cutoff then high_pass low_cutoff audio else audio
  if high_cutoff < 20000 then low_pass high_cutoff a1 else a1

/-- `AudioProcessor.adjust_speed` (lines 278-300): return the buffer as-is
when `speed_factor == 1.0`; otherwise spawn a copy at frame rate
`int(frame_rate * speed_factor)` and resample back to the original rate.
The spawn/`set_frame_rate` resampling path is a pydub library operation,
taken as the parameter `resample` applied to the truncated new frame rate. -/
def adjust_speed (resample : AudioSegment → ℤ → AudioSegment)
    (audio : AudioSegment) (speed_factor : ℚ) : AudioSegment :=
  if speed_factor = 1 then audio
  else
    let new_frame_rate : ℤ := Int.ofNat audio.frame_rate * speed_factor |>.floor
    resample audio new_frame_rate

/-- pydub `AudioSegment.__add__`: appends the second segment's data after the
first (segments assumed format-synced, as pydub's `_sync` ensures). -/
def seg_append (a b : AudioSegment) : AudioSegment :=
  { a with samples := a.samples ++ b.samples }

/-- `AudioProcessor.concatenate_audio` (lines 399-413): `None` on an empty
list, else start from the first segment and `+=` the rest left to right. -/
def concatenate_audio (audio_segments : List AudioSegment) : Option AudioSegment :=
  match audio_segments with
  | [] => none
  | first :: rest => some (rest.foldl seg_append first)

/-! ## Artifact stage (`_apply_mechanical_artifacts`, lines 241-258) -/

/-- Smallest representable sample for a sample width of `w` bytes. -/
def lo_val (w : ℕ) : ℤ := -(2 ^ (8 * w - 1))

/-- Largest representable sample for a sample width of `w` bytes. -/
def hi_val (w : ℕ) : ℤ := 2 ^ (8 * w - 1) - 1

/-- Saturation clamp to the representable range of a `w`-byte sample. -/
def clamp_sample (w : ℕ) (x : ℤ) : ℤ := max (lo_val w) (min (hi_val w) x)

/-- Modelled from the spec: pydub `set_sample_width(1)` followed by
`set_sample_width(w)` — requantize a sample to 8-bit depth and back by
discarding the low-order bytes (arithmetic shift, i.e. floor division). -/
def requantize8 (w : ℕ) (s : ℤ) : ℤ :=
  Int.fdiv s (2 ^ (8 * (w - 1))) * 2 ^ (8 * (w - 1))

/-- Modelled from the spec: `temp_audio - 20` — attenuate by 20 dB, an
amplitude factor of 10^(-20/20) = 1/10, truncated toward zero as pydub's
gain multiplication does. -/
def attenuate_20db (s : ℤ) : ℤ := Int.tdiv s 10

/-- Modelled from the spec: pydub `overlay` — sample-wise add of the second
buffer onto the first at offset 0, saturation-clamping each sum to the
representable range; samples of the base past the end of the overlaid copy
are kept unchanged, and the result has the base buffer's length. -/
def overlay_samples (w : ℕ) (base other : List ℤ) : List ℤ :=
  List.zipWith (fun x y => clamp_sample w (x + y)) base other ++ base.drop other.length

/-- `AudioProcessor._apply_mechanical_artifacts` body (lines 241-254): make a
copy requantized to 8-bit and back, attenuate it by 20 dB, and overlay it
onto the original (pydub primitives modelled from the spec as above). -/
def apply_mechanical_artifacts (w : ℕ) (samples : List ℤ) : List ℤ :=
  overlay_samples w samples (samples.map (fun s => attenuate_20db (requantize8 w s)))

/-! ## Distortion stage (`_enhance_harmonics`, lines 218-239)

The per-channel harmonic enhancement works on a numpy array of integer
samples with float64 intermediates; floats are modelled as reals.  numpy's
`.astype` on an integer dtype truncates toward zero, modelled by
`truncToInt`. -/

/-- `np.max(np.abs(samples))`: peak absolute sample value; 0 for the empty
array (where `np.max` would raise, caught by the surrounding except which
returns the input — the same result as the `max_val = 0` branch). -/
def peakAbs (samples : List ℤ) : ℤ := (samples.map (fun s => |s|)).foldr max 0

/-- numpy float-to-integer cast (`.astype` on an int dtype): truncation
toward zero. -/
noncomputable def truncToInt (x : ℝ) : ℤ := if 0 ≤ x then ⌊x⌋ else ⌈x⌉

/-- `AudioProcessor._enhance_harmonics` (lines 218-239): normalize by the
peak `max_val`, apply `tanh(normalized * factor)`, rescale by
`max_val * 0.8`, cast back to the integer dtype; if `max_val == 0` the
samples are returned unchanged. -/
noncomputable def enhance_harmonics (samples : List ℤ) (factor : ℝ) : List ℤ :=
  let max_val := peakAbs samples
  if 0 < max_val then
    samples.map (fun (s : ℤ) =>
      truncToInt (Real.tanh (((s : ℤ) : ℝ) / ((max_val : ℤ) : ℝ) * factor)
        * ((max_val : ℤ) : ℝ) * (8 / 10)))
  else samples

/-! ## Normalization (`normalize_audio`, lines 260-276)

`audio.dBFS` is pydub's RMS-based level and `audio.apply_gain` a uniform
amplitude scaling; both are library calls absent from src/, modelled from
the spec and pydub's documented semantics over real-valued samples. -/

/-- Modelled from the spec: root-mean-square amplitude of the samples
(pydub `AudioSegment.rms`, in real arithmetic; 0 for the empty list). -/
noncomputable def rms (samples : List ℝ) : ℝ :=
  Real.sqrt ((samples.map (fun s => s ^ 2)).sum / samples.length)

/-- Modelled from the spec: pydub `AudioSegment.dBFS` — the RMS level
relative to the maximum possible amplitude, in decibels:
`20 * log10(rms / max_possible_amplitude)`. -/
noncomputable def dBFS (max_possible_amplitude : ℝ) (samples : List ℝ) : ℝ :=
  20 * Real.logb 10 (rms samples / max_possible_amplitude)

/-- Modelled from the spec: pydub `apply_gain` / `audio + gain` — multiply
every sample by the amplitude ratio `10 ^ (gain_db / 20)`. -/
noncomputable def apply_gain (gain_db : ℝ) (samples : List ℝ) : List ℝ :=
  samples.map (fun s => s * (10 : ℝ) ^ (gain_db / 20))

/-- `AudioProcessor.normalize_audio` (lines 260-276): gain =
`target_dBFS - audio.dBFS`, then `audio + gain`. -/
noncomputable def normalize_audio (max_possible_amplitude target_dBFS : ℝ)
    (samples : List ℝ) : List ℝ :=
  apply_gain (target_dBFS - dBFS max_possible_amplitude samples) samples

/-- Peak absolute amplitude of real-valued samples (pydub `max` /
`max_dBFS` numerator). -/
noncomputable def peakAbsR (samples : List ℝ) : ℝ := (samples.map abs).foldr max 0

/-- Peak level in dBFS: `20 * log10(peak / max_possible_amplitude)`
(pydub `AudioSegment.max_dBFS`). -/
noncomputable def peak_dBFS (max_possible_amplitude : ℝ) (samples : List ℝ) : ℝ :=
  20 * Real.logb 10 (peakAbsR samples / max_possible_amplitude)

/-! ## Theorems -/

lemma clamp_sample_range (w : ℕ) (x : ℤ) :
    lo_val w ≤ clamp_sample w x ∧ clamp_sample w x ≤ hi_val w := by
  have hlohi : lo_val w ≤ hi_val w := by
    have h1 : (0 : ℤ) < 2 ^ (8 * w - 1) := by positivity
    simp only [lo_val, hi_val]
    omega
  constructor
  · exact le_max_left _ _
  · exact max_le hlohi (min_le_left _ _)

lemma overlay_samples_range (w : ℕ) (base other : List ℤ) (t : ℤ)
    (hin : ∀ s ∈ base, lo_val w ≤ s ∧ s ≤ hi_val w)
    (ht : t ∈ overlay_samples w base other) : lo_val w ≤ t ∧ t ≤ hi_val w := by
  induction base generalizing other with
  | nil => simp [overlay_samples] at ht
  | cons x b ih =>
      cases other with
      | nil =>
          simp only [overlay_samples, List.zipWith_nil_right, List.length_nil,
            List.drop_zero, List.nil_append] at ht
          exact hin t ht
      | cons y o =>
          simp only [overlay_samples, List.zipWith_cons_cons, List.length_cons,
            List.drop_succ_cons, List.cons_append, List.mem_cons] at ht
          rcases ht with rfl | ht
          · exact clamp_sample_range w (x + y)
          · exact ih o (fun s hs => hin s (List.mem_cons_of_mem x hs)) ht

/-- C1: every DSP stage is wrapped in `stage_catch`, so if a stage's internal
processing fails the stage yields the unmodified pre-stage buffer; the
orchestrator always produces `some` buffer (stage-local failure never
escalates), and if every stage fails it degrades to the original input. -/
theorem stage_failures_fail_open (filt enh art : AudioSegment → Option AudioSegment)
    (p : EffectsParams) (audio : AudioSegment) :
    (apply_robotic_effects filt enh art p audio).isSome = true
    ∧ (∀ b, filt b = none → stage_catch filt b = b)
    ∧ (∀ b, enh b = none → stage_catch enh b = b)
    ∧ (∀ b, art b = none → stage_catch art b = b)
    ∧ ((∀ b, filt b = none) → (∀ b, enh b = none) → (∀ b, art b = none) →
        apply_robotic_effects filt enh art p audio = some audio) := by
  refine ⟨rfl, ?_, ?_, ?_, ?_⟩
  · intro b hb; simp [stage_catch, hb]
  · intro b hb; simp [stage_catch, hb]
  · intro b hb; simp [stage_catch, hb]
  · intro h1 h2 h3
    simp [apply_robotic_effects, stage_catch, h1, h2, h3]

/-- Witness for C1 at a concrete buffer with all three internals failing. -/
theorem stage_failures_fail_open_witness :
    apply_robotic_effects (fun _ => none) (fun _ => none) (fun _ => none)
      ⟨true, 300, 3000, 3/2, true⟩ ⟨[5, -5], 22050, 1, 2⟩ = some ⟨[5, -5], 22050, 1, 2⟩ :=
  (stage_failures_fail_open (fun _ => none) (fun _ => none) (fun _ => none)
      ⟨true, 300, 3000, 3/2, true⟩ ⟨[5, -5], 22050, 1, 2⟩).2.2.2.2
    (fun _ => rfl) (fun _ => rfl) (fun _ => rfl)

/-- C2: with the frequency filter disabled, harmonic enhancement factor 1.0
and mechanical artifacts disabled, `apply_robotic_effects` returns the input
buffer bit-identically, whatever the stage internals are. -/
theorem all_stages_disabled_identity (filt enh art : AudioSegment → Option AudioSegment)
    (low high : ℤ) (audio : AudioSegment) :
    apply_robotic_effects filt enh art ⟨false, low, high, 1, false⟩ audio = some audio := by
  simp [apply_robotic_effects]

/-- C5: with `low_cutoff = 0` and `high_cutoff ≥ 20000` neither the high-pass
nor the low-pass filter is applied and the filter stage is the identity,
whatever the underlying pydub filters do. -/
theorem filter_disabled_cutoffs_identity
    (high_pass low_pass : ℤ → AudioSegment → AudioSegment)
    (high_cutoff : ℤ) (audio : AudioSegment) (h : 20000 ≤ high_cutoff) :
    apply_frequency_filter high_pass low_pass 0 high_cutoff audio = audio := by
  simp [apply_frequency_filter, not_lt.mpr h]

/-- Witness for C5 at `high_cutoff = 20000` and a concrete buffer. -/
theorem filter_disabled_cutoffs_identity_witness :
    apply_frequency_filter (fun _ a => a) (fun _ a => a) 0 20000
      ⟨[1, 2, 3], 22050, 1, 2⟩ = ⟨[1, 2, 3], 22050, 1, 2⟩ :=
  filter_disabled_cutoffs_identity (fun _ a => a) (fun _ a => a) 20000
    ⟨[1, 2, 3], 22050, 1, 2⟩ (by decide)

/-- C9: `adjust_speed` with `speed_factor` exactly 1.0 short-circuits before
any resampling and returns the input buffer itself, whatever the resampler
would do. -/
theorem adjust_speed_one_identity (resample : AudioSegment → ℤ → AudioSegment)
    (audio : AudioSegment) :
    adjust_speed resample audio 1 = audio := by
  simp [adjust_speed]

/-- C10: `concatenate_audio` returns `None` on the empty list, and on a
non-empty list returns the left-to-right concatenation starting from the
first segment (result samples = concatenation of all segments' samples). -/
theorem concatenate_audio_spec :
    concatenate_audio [] = none
    ∧ ∀ (first : AudioSegment) (rest : List AudioSegment),
        ∃ r, concatenate_audio (first :: rest) = some r
          ∧ r.samples = first.samples ++ (rest.map AudioSegment.samples).flatten := by
  refine ⟨rfl, ?_⟩
  intro first rest
  refine ⟨rest.foldl seg_append first, rfl, ?_⟩
  induction rest generalizing first with
  | nil => simp
  | cons b rest ih =>
      simp only [List.foldl_cons, List.map_cons, List.flatten]
      rw [ih (seg_append first b)]
      simp [seg_append, List.append_assoc]

/-- C4: every sample produced by the artifact stage lies in the representable
signed range for the buffer's sample width: the additive overlay of the
original with the attenuated requantized copy saturation-clamps and never
wraps (given in-range input samples). -/
theorem artifact_stage_output_in_range (w : ℕ) (samples : List ℤ) (t : ℤ)
    (hin : ∀ s ∈ samples, lo_val w ≤ s ∧ s ≤ hi_val w)
    (ht : t ∈ apply_mechanical_artifacts w samples) :
    lo_val w ≤ t ∧ t ≤ hi_val w :=
  overlay_samples_range w samples _ t hin ht

/-- Witness for C4: a 16-bit buffer whose loud samples would overflow on a
plain add; the overlaid sample 32767 is the saturated value and is in range. -/
theorem artifact_stage_output_in_range_witness :
    lo_val 2 ≤ (32767 : ℤ) ∧ (32767 : ℤ) ≤ hi_val 2 :=
  artifact_stage_output_in_range 2 [30000, -30000, 100] 32767
    (by decide) (by decide)

/-! ### Peak and truncation helpers -/

lemma peakAbs_cons (x : ℤ) (t : List ℤ) : peakAbs (x :: t) = max |x| (peakAbs t) := by
  simp [peakAbs]

lemma peakAbs_nonneg (samples : List ℤ) : 0 ≤ peakAbs samples := by
  induction samples with
  | nil => simp [peakAbs]
  | cons x t ih => rw [peakAbs_cons]; exact le_trans ih (le_max_right _ _)

lemma abs_le_peakAbs {samples : List ℤ} {s : ℤ} (hs : s ∈ samples) :
    |s| ≤ peakAbs samples := by
  induction samples with
  | nil => cases hs
  | cons x t ih =>
      rw [peakAbs_cons]
      rcases List.mem_cons.mp hs with rfl | h
      · exact le_max_left _ _
      · exact le_trans (ih h) (le_max_right _ _)

lemma peakAbs_eq_zero_of_all_zero {samples : List ℤ} (h : ∀ s ∈ samples, s = 0) :
    peakAbs samples = 0 := by
  induction samples with
  | nil => simp [peakAbs]
  | cons x t ih =>
      rw [peakAbs_cons, h x (List.mem_cons_self x t),
        ih (fun s hs => h s (List.mem_cons_of_mem x hs))]
      simp

lemma truncToInt_of_nonneg {x : ℝ} (hx : 0 ≤ x) : truncToInt x = ⌊x⌋ := if_pos hx

lemma abs_truncToInt_le (x : ℝ) : |((truncToInt x : ℤ) : ℝ)| ≤ |x| := by
  unfold truncToInt
  split
  · rename_i hx
    have h1 : (0 : ℤ) ≤ ⌊x⌋ := Int.floor_nonneg.mpr hx
    rw [abs_of_nonneg hx, abs_of_nonneg (by exact_mod_cast h1 : (0:ℝ) ≤ ((⌊x⌋ : ℤ) : ℝ))]
    exact Int.floor_le x
  · rename_i hx
    push_neg at hx
    have h1 : ⌈x⌉ ≤ 0 := Int.ceil_le.mpr (by exact_mod_cast hx.le)
    rw [abs_of_neg hx, abs_of_nonpos (by exact_mod_cast h1 : ((⌈x⌉ : ℤ) : ℝ) ≤ 0)]
    exact neg_le_neg (Int.le_ceil x)

/-! ### Bounds on tanh -/

lemma tanh_ratio (x : ℝ) :
    Real.tanh x = (Real.exp x - (Real.exp x)⁻¹) / (Real.exp x + (Real.exp x)⁻¹) := by
  have hne : Real.exp x ≠ 0 := ne_of_gt (Real.exp_pos x)
  have hD : Real.exp x + (Real.exp x)⁻¹ ≠ 0 := by positivity
  rw [Real.tanh_eq_sinh_div_cosh, Real.sinh_eq, Real.cosh_eq, Real.exp_neg]
  field_simp

lemma abs_tanh_lt_one (x : ℝ) : |Real.tanh x| < 1 := by
  have hE : 0 < Real.exp x := Real.exp_pos x
  have hEi : 0 < (Real.exp x)⁻¹ := inv_pos.mpr hE
  have hD : 0 < Real.exp x + (Real.exp x)⁻¹ := by positivity
  rw [tanh_ratio, abs_lt]
  constructor
  · rw [lt_div_iff₀ hD]; nlinarith
  · rw [div_lt_one hD]; nlinarith

lemma exp_two_bounds : (7.389056 : ℝ) < Real.exp 2 ∧ Real.exp 2 < 7.3890561 := by
  have h1 := Real.exp_one_gt_d9
  have h2 := Real.exp_one_lt_d9
  have hE : (0:ℝ) < Real.exp 1 := Real.exp_pos 1
  have hexp2 : Real.exp 2 = Real.exp 1 * Real.exp 1 := by
    rw [show (2:ℝ) = 1 + 1 by norm_num, Real.exp_add]
  constructor
  · rw [hexp2]; nlinarith
  · rw [hexp2]; nlinarith

lemma tanh_one_bounds : (0.76125 : ℝ) ≤ Real.tanh 1 ∧ Real.tanh 1 < 0.7625 := by
  obtain ⟨hs1, hs2⟩ := exp_two_bounds
  have hE : (0:ℝ) < Real.exp 1 := Real.exp_pos 1
  have hne : Real.exp 1 ≠ 0 := ne_of_gt hE
  have hexp2 : Real.exp 2 = Real.exp 1 * Real.exp 1 := by
    rw [show (2:ℝ) = 1 + 1 by norm_num, Real.exp_add]
  have key : Real.tanh 1 = (Real.exp 2 - 1) / (Real.exp 2 + 1) := by
    have hpos2 : (0:ℝ) < Real.exp 2 + 1 := by positivity
    rw [tanh_ratio, div_eq_div_iff (by positivity) hpos2.ne.symm, hexp2]
    field_simp
  have hD : (0:ℝ) < Real.exp 2 + 1 := by positivity
  constructor
  · rw [key, le_div_iff₀ hD]; linarith
  · rw [key, div_lt_iff₀ hD]; linarith

lemma tanh_two_lower : (15/16 : ℝ) ≤ Real.tanh 2 := by
  obtain ⟨hs1, _⟩ := exp_two_bounds
  have hE2 : (0:ℝ) < Real.exp 2 := Real.exp_pos 2
  have hne2 : Real.exp 2 ≠ 0 := ne_of_gt hE2
  have hexp4 : Real.exp 4 = Real.exp 2 * Real.exp 2 := by
    rw [show (4:ℝ) = 2 + 2 by norm_num, Real.exp_add]
  have key : Real.tanh 2 = (Real.exp 4 - 1) / (Real.exp 4 + 1) := by
    have hpos4 : (0:ℝ) < Real.exp 4 + 1 := by positivity
    rw [tanh_ratio, div_eq_div_iff (by positivity) hpos4.ne.symm, hexp4]
    field_simp
  have hs4 : (54 : ℝ) < Real.exp 4 := by rw [hexp4]; nlinarith
  have hD : (0:ℝ) < Real.exp 4 + 1 := by positivity
  rw [key, le_div_iff₀ hD]
  linarith

/-- C7: if every sample of a channel is zero its peak `max_val` is 0 and the
distortion stage returns the samples unchanged, for any enhancement factor. -/
theorem enhance_silence_unchanged (samples : List ℤ) (factor : ℝ)
    (h : ∀ s ∈ samples, s = 0) :
    enhance_harmonics samples factor = samples := by
  have hp : peakAbs samples = 0 := peakAbs_eq_zero_of_all_zero h
  simp [enhance_harmonics, hp]

/-- Witness for C7: one second of 22050 Hz mono silence through the stage at
factor 1.5 is still all-zero. -/
theorem enhance_silence_unchanged_witness :
    enhance_harmonics (List.replicate 22050 0) (3/2) = List.replicate 22050 0 :=
  enhance_silence_unchanged (List.replicate 22050 0) (3/2)
    (fun _ hs => List.eq_of_mem_replicate hs)

lemma enhance_1000 : enhance_harmonics [1000] 1 = [609] := by
  obtain ⟨hlo, hhi⟩ := tanh_one_bounds
  have hpk : peakAbs [1000] = 1000 := by decide
  have hval : Real.tanh ((((1000:ℤ)):ℝ) / (((1000:ℤ)):ℝ) * 1) * (((1000:ℤ)):ℝ) * (8 / 10)
      = Real.tanh 1 * 800 := by norm_num; ring
  have htr : truncToInt (Real.tanh 1 * 800) = 609 := by
    rw [truncToInt_of_nonneg (by nlinarith), Int.floor_eq_iff]
    constructor
    · push_cast; nlinarith
    · push_cast; nlinarith
  simp only [enhance_harmonics, hpk]
  rw [if_pos (by norm_num : (0:ℤ) < 1000)]
  simp only [List.map_cons, List.map_nil, hval, htr]

/-- C3 as stated is false: at factor 1.0 the distortion stage maps the
peak-1000 buffer to peak 609 (= trunc(0.8 * tanh 1 * 1000)), which is not
within rounding tolerance (one quantization step) of the input peak 1000. -/
theorem enhance_factor_one_not_near_identity :
    peakAbs (enhance_harmonics [1000] 1) = 609 ∧ peakAbs [1000] = 1000
      ∧ 1 < |peakAbs [1000] - peakAbs (enhance_harmonics [1000] 1)| := by
  rw [enhance_1000]
  refine ⟨by decide, by decide, by decide⟩

/-- C3 amended: at factor 1.0 the stage is not near-identity in peak; every
output sample has magnitude at most 0.8 times the input peak (the tanh
saturation times the fixed 0.8 rescale attenuates the buffer). -/
theorem enhance_factor_one_attenuates (samples : List ℤ) (t : ℤ)
    (ht : t ∈ enhance_harmonics samples 1) :
    5 * |t| ≤ 4 * peakAbs samples := by
  by_cases hp : 0 < peakAbs samples
  · simp only [enhance_harmonics] at ht
    rw [if_pos hp] at ht
    obtain ⟨s, _, rfl⟩ := List.mem_map.mp ht
    have hMR : (0:ℝ) < ((peakAbs samples : ℤ) : ℝ) := by exact_mod_cast hp
    set v : ℝ := Real.tanh (((s : ℤ) : ℝ) / ((peakAbs samples : ℤ) : ℝ) * 1)
      * ((peakAbs samples : ℤ) : ℝ) * (8 / 10) with hv
    have habs : |((truncToInt v : ℤ) : ℝ)| ≤ |v| := abs_truncToInt_le v
    have htanh := abs_tanh_lt_one (((s : ℤ) : ℝ) / ((peakAbs samples : ℤ) : ℝ) * 1)
    have hval : |v| ≤ ((peakAbs samples : ℤ) : ℝ) * (8 / 10) := by
      rw [hv, abs_mul, abs_mul, abs_of_pos hMR, show |(8/10 : ℝ)| = 8/10 by norm_num]
      nlinarith [abs_nonneg (Real.tanh (((s : ℤ) : ℝ) / ((peakAbs samples : ℤ) : ℝ) * 1))]
    have hR : (5:ℝ) * |((truncToInt v : ℤ) : ℝ)| ≤ 4 * ((peakAbs samples : ℤ) : ℝ) := by
      linarith
    exact_mod_cast hR
  · have h0 : peakAbs samples = 0 := le_antisymm (not_lt.mp hp) (peakAbs_nonneg samples)
    simp only [enhance_harmonics] at ht
    rw [if_neg hp] at ht
    have := abs_le_peakAbs ht
    omega

/-- Witness for the amended C3 at the concrete buffer `[1000]`, whose output
sample is 609: 5 * 609 ≤ 4 * 1000. -/
theorem enhance_factor_one_attenuates_witness :
    5 * |(609 : ℤ)| ≤ 4 * peakAbs [1000] :=
  enhance_factor_one_attenuates [1000] 609
    (by rw [enhance_1000]; exact List.mem_singleton_self 609)

lemma tanh_two_window : (15/16 : ℝ) ≤ Real.tanh 2 ∧ Real.tanh 2 < 1 := by
  refine ⟨tanh_two_lower, ?_⟩
  have := abs_tanh_lt_one 2
  rw [abs_lt] at this
  exact this.2

lemma enhance_10_2 : enhance_harmonics [10] 2 = [7] := by
  obtain ⟨hlo, hhi⟩ := tanh_two_window
  have hpk : peakAbs [10] = 10 := by decide
  have hval : Real.tanh ((((10:ℤ)):ℝ) / (((10:ℤ)):ℝ) * 2) * (((10:ℤ)):ℝ) * (8 / 10)
      = Real.tanh 2 * 8 := by norm_num; ring
  have htr : truncToInt (Real.tanh 2 * 8) = 7 := by
    rw [truncToInt_of_nonneg (by nlinarith), Int.floor_eq_iff]
    constructor
    · push_cast; nlinarith
    · push_cast; nlinarith
  simp only [enhance_harmonics, hpk]
  rw [if_pos (by norm_num : (0:ℤ) < 10)]
  simp only [List.map_cons, List.map_nil, hval, htr]

/-- C6 as stated is false: at input `[10]`, factor 2, the real intermediate
is `tanh 2 * 10 * 0.8 ≈ 7.71`; rounding to nearest would give 8, but the
numpy cast produces 7 — the final cast truncates, it does not round. -/
theorem enhance_cast_not_rounded :
    enhance_harmonics [10] 2 = [7]
      ∧ round (Real.tanh ((((10:ℤ)):ℝ) / (((10:ℤ)):ℝ) * 2) * (((10:ℤ)):ℝ) * (8 / 10)) = 8 := by
  obtain ⟨hlo, hhi⟩ := tanh_two_window
  refine ⟨enhance_10_2, ?_⟩
  have hval : Real.tanh ((((10:ℤ)):ℝ) / (((10:ℤ)):ℝ) * 2) * (((10:ℤ)):ℝ) * (8 / 10)
      = Real.tanh 2 * 8 := by norm_num; ring
  rw [hval, round_eq, Int.floor_eq_iff]
  constructor
  · push_cast; nlinarith
  · push_cast; nlinarith

/-- C6 amended: intermediate arithmetic is in floating point, but the final
cast truncates toward zero: at input `[10]`, factor 2, the exact
intermediate lies in [7.5, 8) and the stage outputs its truncation 7. -/
theorem enhance_cast_truncates :
    enhance_harmonics [10] 2 = [7]
      ∧ (15/2 : ℝ) ≤ Real.tanh 2 * 10 * (8 / 10)
      ∧ Real.tanh 2 * 10 * (8 / 10) < 8 := by
  obtain ⟨hlo, hhi⟩ := tanh_two_window
  exact ⟨enhance_10_2, by nlinarith, by nlinarith⟩

/-! ### Normalization lemmas -/

lemma rms_map_mul (samples : List ℝ) (c : ℝ) (hc : 0 ≤ c) :
    rms (samples.map (fun s => s * c)) = c * rms samples := by
  unfold rms
  rw [List.map_map, List.length_map]
  have h1 : ((fun s => s ^ 2) ∘ fun s => s * c) = fun s => s ^ 2 * c ^ 2 := by
    funext s; simp [Function.comp]; ring
  rw [h1, List.sum_map_mul_right]
  rw [show (samples.map fun s => s ^ 2).sum * c ^ 2 / samples.length
      = c ^ 2 * ((samples.map fun s => s ^ 2).sum / samples.length) by ring]
  rw [Real.sqrt_mul (sq_nonneg c), Real.sqrt_sq hc]

/-- C8 amended: `normalize_audio` computes the current RMS (average) level in
dBFS — pydub's `dBFS`, not the peak level — and applies a uniform gain that
makes the output's RMS level equal the target; for any non-silent buffer the
output's RMS dBFS is exactly the target. -/
theorem normalize_sets_rms_dbfs (maxamp target : ℝ) (samples : List ℝ)
    (hamp : 0 < maxamp) (hrms : 0 < rms samples) :
    dBFS maxamp (normalize_audio maxamp target samples) = target := by
  set g := target - dBFS maxamp samples with hg
  have hc : (0:ℝ) < (10:ℝ) ^ (g / 20) := Real.rpow_pos_of_pos (by norm_num) _
  unfold normalize_audio apply_gain
  rw [show dBFS maxamp (samples.map fun s => s * (10:ℝ) ^ ((target - dBFS maxamp samples) / 20))
      = dBFS maxamp (samples.map fun s => s * (10:ℝ) ^ (g / 20)) by rw [← hg]]
  unfold dBFS
  rw [rms_map_mul _ _ hc.le]
  rw [show (10:ℝ) ^ (g / 20) * rms samples / maxamp
      = (10:ℝ) ^ (g / 20) * (rms samples / maxamp) by ring]
  rw [Real.logb_mul (ne_of_gt hc) (ne_of_gt (div_pos hrms hamp))]
  rw [Real.logb_rpow (by norm_num) (by norm_num)]
  rw [hg]
  unfold dBFS
  ring

/-- Witness for the amended C8: normalizing the unit-sample buffer to
−20 dBFS yields a buffer whose RMS level is −20 dBFS. -/
theorem normalize_sets_rms_dbfs_witness :
    dBFS 1 (normalize_audio 1 (-20) [1]) = -20 :=
  normalize_sets_rms_dbfs 1 (-20) [1] one_pos
    (by simp [rms])

/-- C8 as stated is false: normalizing `[0, 1]` (peak 1, RMS √½) to target
−20 dBFS leaves the output's peak level at −20 + 10·log₁₀ 2 dBFS, not at the
target — the gain is computed from pydub's RMS-based `dBFS`, so only the RMS
level, not the peak level, reaches the target. -/
theorem normalize_peak_counterexample :
    peak_dBFS 1 (normalize_audio 1 (-20) [0, 1]) ≠ -20 := by
  have h10 : (1:ℝ) < 10 := by norm_num
  have hrms : rms [(0:ℝ), 1] = Real.sqrt (1/2) := by
    unfold rms
    norm_num
  set g := (-20:ℝ) - dBFS 1 [(0:ℝ), 1] with hg
  have hc : (0:ℝ) < (10:ℝ) ^ (g / 20) := Real.rpow_pos_of_pos (by norm_num) _
  have hnorm : normalize_audio 1 (-20) [(0:ℝ), 1] = [0, (10:ℝ) ^ (g / 20)] := by
    unfold normalize_audio apply_gain
    rw [← hg]
    simp
  have hpeak : peakAbsR [0, (10:ℝ) ^ (g / 20)] = (10:ℝ) ^ (g / 20) := by
    unfold peakAbsR
    simp only [List.map_cons, List.map_nil, List.foldr_cons, List.foldr_nil,
      abs_zero, abs_of_pos hc]
    rw [max_eq_left hc.le, max_eq_right hc.le]
  unfold peak_dBFS
  rw [hnorm, hpeak, div_one, Real.logb_rpow (by norm_num) (by norm_num)]
  rw [hg]
  unfold dBFS
  rw [hrms, div_one]
  have hs2 : Real.logb 10 (Real.sqrt (1/2)) < 0 := by
    apply Real.logb_neg h10 (Real.sqrt_pos.mpr (by norm_num))
    rw [show (1:ℝ) = Real.sqrt 1 by rw [Real.sqrt_one]]
    exact Real.sqrt_lt_sqrt (by norm_num) (by norm_num)
  intro hcontra
  linarith
